import Mathlib

/-
Verification of the remote-field resolution engine of django-remote-field
(remotefields/base.py). The Python code is shallowly embedded: records and
remote records are insertion-ordered key/value association lists (the
semantics of Python dicts), endpoints are injected data/functions, Python
exceptions are an explicit error type threaded through `Except`, and every
network call is recorded in an explicit trace so that call-count properties
can be stated.
-/

set_option maxHeartbeats 1000000

namespace RemoteFields

/-- A Python value: `None`, an integer, a string, or a dict
(an insertion-ordered mapping from string keys to values). -/
inductive Value where
  | null : Value
  | int : Int → Value
  | str : String → Value
  | dict : List (String × Value) → Value

mutual

/-- Decidable equality of Python values, by structural recursion (the
automatic deriving does not handle the nested list of pairs). -/
def Value.decEq : (a b : Value) → Decidable (a = b)
  | .null, .null => isTrue rfl
  | .null, .int _ => isFalse (fun h => nomatch h)
  | .null, .str _ => isFalse (fun h => nomatch h)
  | .null, .dict _ => isFalse (fun h => nomatch h)
  | .int _, .null => isFalse (fun h => nomatch h)
  | .int m, .int n =>
    if h : m = n then isTrue (by rw [h]) else isFalse (fun hh => h (by injection hh))
  | .int _, .str _ => isFalse (fun h => nomatch h)
  | .int _, .dict _ => isFalse (fun h => nomatch h)
  | .str _, .null => isFalse (fun h => nomatch h)
  | .str _, .int _ => isFalse (fun h => nomatch h)
  | .str s, .str t =>
    if h : s = t then isTrue (by rw [h]) else isFalse (fun hh => h (by injection hh))
  | .str _, .dict _ => isFalse (fun h => nomatch h)
  | .dict _, .null => isFalse (fun h => nomatch h)
  | .dict _, .int _ => isFalse (fun h => nomatch h)
  | .dict _, .str _ => isFalse (fun h => nomatch h)
  | .dict d, .dict e =>
    match Value.decEqList d e with
    | isTrue h => isTrue (by rw [h])
    | isFalse h => isFalse (fun hh => h (by injection hh))

/-- Decidable equality of lists of string/value bindings. -/
def Value.decEqList : (d e : List (String × Value)) → Decidable (d = e)
  | [], [] => isTrue rfl
  | [], _ :: _ => isFalse (fun h => nomatch h)
  | _ :: _, [] => isFalse (fun h => nomatch h)
  | (k, v) :: r, (k2, v2) :: r2 =>
    if hk : k = k2 then
      match Value.decEq v v2, Value.decEqList r r2 with
      | isTrue hv, isTrue hr => isTrue (by rw [hk, hv, hr])
      | isFalse hv, _ => isFalse (fun h => by
          injection h with h1 h2
          exact hv (congrArg Prod.snd h1))
      | _, isFalse hr => isFalse (fun h => by
          injection h with h1 h2
          exact hr h2)
    else
      isFalse (fun h => by
        injection h with h1 h2
        exact hk (congrArg Prod.fst h1))

end

instance : DecidableEq Value := Value.decEq

/-- True exactly when the value is a Python dict
(models `isinstance(x, dict)`). -/
def Value.isDict : Value → Bool
  | .dict _ => true
  | _ => false

instance {ε α : Type} [DecidableEq ε] [DecidableEq α] : DecidableEq (Except ε α)
  | .ok a, .ok b =>
    if h : a = b then isTrue (by rw [h]) else isFalse (fun hh => h (by injection hh))
  | .ok _, .error _ => isFalse (fun h => nomatch h)
  | .error _, .ok _ => isFalse (fun h => nomatch h)
  | .error e, .error f =>
    if h : e = f then isTrue (by rw [h]) else isFalse (fun hh => h (by injection hh))

/-- A serialized record / remote payload: a Python dict from attribute name
to value, modelled as an association list with unique keys, in insertion
order. -/
abbrev Record := List (String × Value)

/-- A remote record returned by an endpoint (same shape as `Record`). -/
abbrev RemoteRecord := List (String × Value)

/-- Lookup in an association list (Python `d[k]` when it succeeds,
`k in d` membership when tested for `isSome`). Returns the first binding. -/
def alistLookup {κ : Type} {α : Type} [DecidableEq κ] : List (κ × α) → κ → Option α
  | [], _ => none
  | (k, v) :: rest, key => if k = key then some v else alistLookup rest key

/-- Python dict assignment `d[k] = v`: update the existing binding in place
(keeping its position) or append a new binding at the end. -/
def alistSet {κ : Type} {α : Type} [DecidableEq κ] : List (κ × α) → κ → α → List (κ × α)
  | [], key, val => [(key, val)]
  | (k, v) :: rest, key, val =>
    if k = key then (k, val) :: rest else (k, v) :: alistSet rest key val

/-- Python membership test `k in d`. -/
def alistContains {κ : Type} {α : Type} [DecidableEq κ] (l : List (κ × α)) (k : κ) : Bool :=
  (alistLookup l k).isSome

/-- Python `del d[k]` once the key is known present: drop the binding.
Dicts have unique keys, so filtering all bindings with that key is the
removal of the single binding. -/
def alistErase {κ : Type} {α : Type} [DecidableEq κ] (l : List (κ × α)) (k : κ) : List (κ × α) :=
  l.filter (fun p => decide (p.1 ≠ k))

/-- Python exceptions relevant to the engine. `keyError` is raised by a
failed dict lookup, `valueError` by the transport on an invalid request and
by spec construction, `indexError` by an out-of-range sequence index;
`otherError` stands for any other exception. -/
inductive PyErr where
  | keyError : PyErr
  | valueError : PyErr
  | indexError : PyErr
  | otherError : PyErr
  deriving DecidableEq

/-- A network call made by the engine, identified by the declared output
field name of the spec that made it (and the pk for detail calls). -/
inductive NetCall where
  | listCall : String → NetCall
  | detailCall : String → Value → NetCall
  deriving DecidableEq

/-- The `RemoteField` declaration (remotefields/base.py, class RemoteField):
the join-key source attribute, the remote attributes to project, the flat
flag, and the two injected endpoints. The list endpoint is modelled by the
sequence of remote records it returns; the detail endpoint by a function
from pk to a remote record or a raised exception. -/
structure RemoteField where
  source : String
  remote_sources : List String
  flat : Bool
  listEndpoint : List RemoteRecord
  detailEndpoint : Value → Except PyErr RemoteRecord

/-- RemoteField.__init__ (base.py lines 24-40): raises `ValueError` when
`flat` is true and more than one remote source is requested, otherwise
constructs the field. -/
def mkRemoteField (source : String) (remote_sources : List String) (flat : Bool)
    (listEndpoint : List RemoteRecord) (detailEndpoint : Value → Except PyErr RemoteRecord) :
    Except PyErr RemoteField :=
  if flat ∧ remote_sources.length > 1 then
    .error .valueError
  else
    .ok ⟨source, remote_sources, flat, listEndpoint, detailEndpoint⟩

/-- The loop of `_fill_remote_field` for the nested (non-flat) case
(base.py lines 195-199): for each declared remote source in order, read the
attribute from the remote record (raising `KeyError` when absent) and
assign it into the accumulating dict. -/
def fillNestedLoop (robj : RemoteRecord) : List String → Record → Except PyErr Record
  | [], acc => .ok acc
  | a :: rest, acc =>
    match alistLookup robj a with
    | none => .error .keyError
    | some v => fillNestedLoop robj rest (alistSet acc a v)

/-- `_fill_remote_field` (base.py lines 190-199): flat mode returns the
scalar at the first declared remote source (`IndexError` when the spec has
no remote sources, `KeyError` when the remote record lacks it); nested mode
builds a dict restricted to the declared remote sources. -/
def fillRemoteField (rf : RemoteField) (robj : RemoteRecord) : Except PyErr Value :=
  if rf.flat then
    match rf.remote_sources with
    | [] => .error .indexError
    | a :: _ =>
      match alistLookup robj a with
      | none => .error .keyError
      | some v => .ok v
  else
    match fillNestedLoop robj rf.remote_sources [] with
    | .error e => .error e
    | .ok fields => .ok (.dict fields)

/-- The index-building loop of `_add_remote_fields_to_list` (base.py lines
143-146): assign each remote record into the index under its id attribute,
in order (last write wins; `KeyError` when a remote
record has no id). -/
def buildIndex : List RemoteRecord → List (Value × RemoteRecord) → Except PyErr (List (Value × RemoteRecord))
  | [], idx => .ok idx
  | robj :: rest, idx =>
    match alistLookup robj "id" with
    | none => .error .keyError
    | some pk => buildIndex rest (alistSet idx pk robj)

/-- The per-record body of `_add_remote_fields_to_list` (base.py lines
148-156): read the join key (an uncaught `KeyError` when the attribute is
absent), look it up in the index, and write the projected value; a
`KeyError` from the index lookup or from the projection writes null. Any
other exception from the projection propagates. -/
def listPathStep (n : String) (rf : RemoteField) (idx : List (Value × RemoteRecord))
    (rec : Record) : Except PyErr Record :=
  match alistLookup rec rf.source with
  | none => .error .keyError
  | some pk =>
    match alistLookup idx pk with
    | none => .ok (alistSet rec n .null)
    | some robj =>
      match fillRemoteField rf robj with
      | .ok v => .ok (alistSet rec n v)
      | .error .keyError => .ok (alistSet rec n .null)
      | .error e => .error e

/-- Run a fallible function over a list, stopping at the first raised
exception (the value-level effect of a Python for loop that may raise). -/
def mapExcept {α β : Type} (f : α → Except PyErr β) : List α → Except PyErr (List β)
  | [] => .ok []
  | a :: rest =>
    match f a with
    | .error e => .error e
    | .ok b =>
      match mapExcept f rest with
      | .error e => .error e
      | .ok bs => .ok (b :: bs)

/-- `_add_remote_fields_to_list` (base.py lines 131-157): for every
declared remote field, call its list endpoint once, build the id index and
fill the field on every record of the collection. The first component is
the trace of network calls made, in order. -/
def addRemoteFieldsToList : List (String × RemoteField) → List Record →
    List NetCall × Except PyErr (List Record)
  | [], data => ([], .ok data)
  | (n, rf) :: rest, data =>
    match buildIndex rf.listEndpoint [] with
    | .error e => ([.listCall n], .error e)
    | .ok idx =>
      match mapExcept (listPathStep n rf idx) data with
      | .error e => ([.listCall n], .error e)
      | .ok data2 =>
        let r := addRemoteFieldsToList rest data2
        (.listCall n :: r.1, r.2)

/-- The detail call of `_add_remote_fields_to_obj` (base.py lines 181-184)
together with the surrounding `except (KeyError, ValueError)` (line 186): a
`KeyError` or `ValueError` raised by the endpoint or by the projection is
degraded to null; any other exception propagates. -/
def detailFetch (n : String) (rf : RemoteField) (pk : Value) : List NetCall × Except PyErr Value :=
  match rf.detailEndpoint pk with
  | .ok robj =>
    match fillRemoteField rf robj with
    | .ok v => ([.detailCall n pk], .ok v)
    | .error .keyError => ([.detailCall n pk], .ok .null)
    | .error .valueError => ([.detailCall n pk], .ok .null)
    | .error e => ([.detailCall n pk], .error e)
  | .error .keyError => ([.detailCall n pk], .ok .null)
  | .error .valueError => ([.detailCall n pk], .ok .null)
  | .error e => ([.detailCall n pk], .error e)

/-- The try block of `_add_remote_fields_to_obj` (base.py lines 176-187):
a missing join-key attribute is a `KeyError` caught to null; a null join
key writes null without any call; otherwise the detail endpoint is
called. -/
def tryBranch (n : String) (rf : RemoteField) (srcVal : Option Value) :
    List NetCall × Except PyErr Value :=
  match srcVal with
  | none => ([], .ok .null)
  | some .null => ([], .ok .null)
  | some pk => detailFetch n rf pk

/-- One spec of `_add_remote_fields_to_obj` (base.py lines 168-187), as a
function of whether the output name is present in the record and of the
value bound to the join-key source. When the output name is present and the
source holds a dict, the source value is reused without any call (lines
171-174); evaluating that condition with the source attribute absent raises
an uncaught `KeyError`; every other case runs the try block. The result is
the value assigned to the output name, or the propagated exception. -/
def stepOutcome (n : String) (rf : RemoteField) (namePresent : Bool) (srcVal : Option Value) :
    List NetCall × Except PyErr Value :=
  if namePresent then
    match srcVal with
    | none => ([], .error .keyError)
    | some (.dict m) => ([], .ok (.dict m))
    | some pk => tryBranch n rf (some pk)
  else
    tryBranch n rf srcVal

/-- One iteration of the spec loop of `_add_remote_fields_to_obj`: compute
the outcome for this spec and assign it under the output name (every
non-raising branch of the Python loop body ends in exactly one such
assignment). -/
def stepObj (n : String) (rf : RemoteField) (d : Record) : List NetCall × Except PyErr Record :=
  match stepOutcome n rf (alistContains d n) (alistLookup d rf.source) with
  | (tr, .ok v) => (tr, .ok (alistSet d n v))
  | (tr, .error e) => (tr, .error e)

/-- `_add_remote_fields_to_obj` (base.py lines 159-188): process each
declared remote field in order on the single record, tracing the network
calls made. -/
def addRemoteFieldsToObj : List (String × RemoteField) → Record →
    List NetCall × Except PyErr Record
  | [], d => ([], .ok d)
  | (n, rf) :: rest, d =>
    match stepObj n rf d with
    | (tr, .error e) => (tr, .error e)
    | (tr, .ok d2) =>
      let r := addRemoteFieldsToObj rest d2
      (tr ++ r.1, r.2)

/-- The bookkeeping sources of the `data` property (base.py lines 99-102):
the join-key sources of the declared remote fields that are not among the
originally declared fields. Python computes a set difference; this is one
deterministic enumeration of that set (first occurrences, in declaration
order). -/
def newSources (existing : List String) (rfs : List (String × RemoteField)) : List String :=
  ((rfs.map (fun p => p.2.source)).filter (fun s => decide (s ∉ existing))).dedup

/-- Python `getattr(obj, a, None)`: the attribute value, defaulting to
`None`. -/
def getattrD (obj : Record) (a : String) : Value :=
  (alistLookup obj a).getD .null

/-- Serialization of one declared field name by the surrounding framework
(out of scope of the engine, abstracted): a remote field serializes to its
join-key source value (`RemoteField.field_to_native`, base.py lines 42-46),
any other field to the attribute of that name. -/
def serializeField (rfs : List (String × RemoteField)) (obj : Record) (f : String) : Value :=
  match alistLookup rfs f with
  | some rf => getattrD obj rf.source
  | none => getattrD obj f

/-- Serialization of one object into a record holding exactly the given
field names, built by dict assignment in field order. -/
def serializeObj (fieldsAll : List String) (rfs : List (String × RemoteField))
    (obj : Record) : Record :=
  fieldsAll.foldl (fun r f => alistSet r f (serializeField rfs obj f)) []

/-- Python `del d[k]` (base.py lines 114 and 118): raises `KeyError` when
the key is absent, otherwise removes the binding. -/
def pyDel (d : Record) (k : String) : Except PyErr Record :=
  if alistContains d k then .ok (alistErase d k) else .error .keyError

/-- Delete each key in turn (the `for field in new_sources: del ...`
loops of the `data` property). -/
def pyDelAll (d : Record) : List String → Except PyErr Record
  | [] => .ok d
  | k :: rest =>
    match pyDel d k with
    | .error e => .error e
    | .ok d2 => pyDelAll d2 rest

/-- The `data` property on a collection (base.py lines 94-114): extend the
declared fields with the bookkeeping join-key sources, serialize every
object with the extended field set, resolve the remote fields over the
collection, then delete every bookkeeping source from every record. -/
def dataList (existing : List String) (rfs : List (String × RemoteField))
    (objs : List Record) : List NetCall × Except PyErr (List Record) :=
  let ns := newSources existing rfs
  let serialized := objs.map (serializeObj (existing ++ ns) rfs)
  let r := addRemoteFieldsToList rfs serialized
  match r.2 with
  | .error e => (r.1, .error e)
  | .ok recs => (r.1, mapExcept (fun rec => pyDelAll rec ns) recs)

/-- The `data` property on a single record (base.py lines 94-108 and
115-119): same pipeline on one object. -/
def dataObj (existing : List String) (rfs : List (String × RemoteField))
    (obj : Record) : List NetCall × Except PyErr Record :=
  let ns := newSources existing rfs
  let d0 := serializeObj (existing ++ ns) rfs obj
  let r := addRemoteFieldsToObj rfs d0
  match r.2 with
  | .error e => (r.1, .error e)
  | .ok d => (r.1, pyDelAll d ns)

/-! Basic lemmas about the association-list operations. -/

theorem alistLookup_set {κ α : Type} [DecidableEq κ] (l : List (κ × α)) (k : κ) (v : α)
    (k2 : κ) :
    alistLookup (alistSet l k v) k2 = if k2 = k then some v else alistLookup l k2 := by
  induction l with
  | nil =>
    by_cases h : k2 = k
    · subst h
      simp [alistSet, alistLookup]
    · have h2 : ¬ (k = k2) := fun hh => h hh.symm
      simp [alistSet, alistLookup, h, h2]
  | cons p rest ih =>
    obtain ⟨k1, v1⟩ := p
    by_cases h1 : k1 = k
    · subst h1
      by_cases h2 : k2 = k1
      · subst h2
        simp [alistSet, alistLookup]
      · have h3 : ¬ (k1 = k2) := fun hh => h2 hh.symm
        simp [alistSet, alistLookup, h2, h3]
    · by_cases h2 : k1 = k2
      · subst h2
        simp [alistSet, alistLookup, h1, fun hh : k1 = k => h1 hh]
      · simp [alistSet, alistLookup, h1, h2, ih]

theorem alistSet_self {κ α : Type} [DecidableEq κ] (l : List (κ × α)) (k : κ) (v : α)
    (h : alistLookup l k = some v) : alistSet l k v = l := by
  induction l with
  | nil => simp [alistLookup] at h
  | cons p rest ih =>
    obtain ⟨k1, v1⟩ := p
    by_cases h1 : k1 = k
    · subst h1
      simp [alistLookup] at h
      simp [alistSet, h]
    · simp [alistLookup, h1] at h
      simp [alistSet, h1, ih h]

theorem alistContains_set {κ α : Type} [DecidableEq κ] (l : List (κ × α)) (k : κ) (v : α)
    (k2 : κ) (h : alistContains l k2 = true) : alistContains (alistSet l k v) k2 = true := by
  unfold alistContains at h ⊢
  rw [alistLookup_set]
  by_cases h2 : k2 = k <;> simp [h2, h]

theorem alistSet_append {κ α : Type} [DecidableEq κ] (l : List (κ × α)) (k : κ) (v : α)
    (h : alistLookup l k = none) : alistSet l k v = l ++ [(k, v)] := by
  induction l with
  | nil => rfl
  | cons p rest ih =>
    obtain ⟨k1, v1⟩ := p
    unfold alistLookup at h
    by_cases h1 : k1 = k
    · simp [h1] at h
    · simp only [if_neg h1] at h
      simp [alistSet, h1, ih h]

theorem alistLookup_append_right {κ α : Type} [DecidableEq κ] (l1 l2 : List (κ × α)) (k : κ)
    (h : alistLookup l1 k = none) :
    alistLookup (l1 ++ l2) k = alistLookup l2 k := by
  induction l1 with
  | nil => rfl
  | cons p rest ih =>
    obtain ⟨k1, v1⟩ := p
    unfold alistLookup at h
    by_cases h1 : k1 = k
    · simp [h1] at h
    · simp only [if_neg h1] at h
      simp [alistLookup, h1, ih h]

theorem alistErase_cons_self {κ α : Type} [DecidableEq κ] (k : κ) (v : α)
    (rest : List (κ × α)) : alistErase ((k, v) :: rest) k = alistErase rest k := by
  simp [alistErase]

theorem alistErase_cons_ne {κ α : Type} [DecidableEq κ] (k1 k : κ) (v : α)
    (rest : List (κ × α)) (h : ¬ (k1 = k)) :
    alistErase ((k1, v) :: rest) k = (k1, v) :: alistErase rest k := by
  simp [alistErase, h]

theorem alistLookup_erase {κ α : Type} [DecidableEq κ] (l : List (κ × α)) (k s : κ) :
    alistLookup (alistErase l k) s = if s = k then none else alistLookup l s := by
  induction l with
  | nil => by_cases h : s = k <;> simp [alistErase, alistLookup, h]
  | cons p rest ih =>
    obtain ⟨k1, v1⟩ := p
    by_cases h1 : k1 = k
    · subst h1
      rw [alistErase_cons_self, ih]
      by_cases h2 : s = k1
      · simp [h2]
      · have h3 : ¬ (k1 = s) := fun hh => h2 hh.symm
        simp [h2, alistLookup, h3]
    · rw [alistErase_cons_ne k1 k v1 rest h1]
      by_cases h2 : k1 = s
      · subst h2
        simp [alistLookup, h1]
      · simp [alistLookup, h1, h2, ih]

/-- C10: constructing a spec with flatten true and more than one remote
attribute fails with the construction-time error (named InvalidSpecification
by the spec, a `ValueError` in the code); but a successfully
constructed spec only satisfies `flat = true → remote_sources.length ≤ 1`:
the code never rejects an empty remote-attribute sequence, so the stated
invariant `length = 1` fails (see the counterexample). This is the amended
claim. -/
theorem c10_flatten_invariant (source : String) (rs : List String) (flat : Bool)
    (le : List RemoteRecord) (de : Value → Except PyErr RemoteRecord) :
    (flat = true → rs.length > 1 →
      mkRemoteField source rs flat le de = .error .valueError) ∧
    (∀ rf, mkRemoteField source rs flat le de = .ok rf →
      rf.flat = true → rf.remote_sources.length ≤ 1) := by
  constructor
  · intro hf hl
    simp [mkRemoteField, hf, hl]
  · intro rf h hf
    unfold mkRemoteField at h
    by_cases hc : flat = true ∧ rs.length > 1
    · rw [if_pos (by exact_mod_cast hc)] at h
      exact absurd h (by simp)
    · rw [if_neg (by exact_mod_cast hc)] at h
      injection h with h2
      subst h2
      simp only [not_and, not_lt] at hc
      exact hc hf

/-- C10 witness: the error branch fires at a concrete flat spec declaring
two remote attributes. -/
theorem c10_flatten_invariant_witness :
    mkRemoteField "thing_id" ["id", "name"] true []
      (fun _ => .error .keyError) = .error .valueError :=
  (c10_flatten_invariant "thing_id" ["id", "name"] true []
    (fun _ => .error .keyError)).1 rfl (by decide)

/-- C10 counterexample: a spec with flatten true and an empty remote
attribute sequence constructs successfully, and its remote attribute
sequence does not have length one — refuting the claimed invariant
`flatten = true → length = 1` for successfully constructed specs. -/
theorem c10_counterexample :
    (mkRemoteField "thing_id" [] true [] (fun _ => .error .keyError)).toOption.map
      (fun rf => (rf.flat, rf.remote_sources.length)) = some (true, 0) := rfl

/-- The nested projection loop pushes each declared remote source with its
remote value onto the accumulator in order. -/
theorem fillNestedLoop_eq (robj : RemoteRecord) (sources : List String) :
    ∀ acc : Record, sources.Nodup →
    (∀ a ∈ sources, (alistLookup robj a).isSome) →
    (∀ a ∈ sources, alistLookup acc a = none) →
    fillNestedLoop robj sources acc =
      .ok (acc ++ sources.map (fun a => (a, (alistLookup robj a).getD .null))) := by
  induction sources with
  | nil => intro acc _ _ _; simp [fillNestedLoop]
  | cons a rest ih =>
    intro acc hnd hsome hfree
    have ha : (alistLookup robj a).isSome := hsome a (by simp)
    obtain ⟨v, hv⟩ := Option.isSome_iff_exists.mp ha
    have hcons : fillNestedLoop robj (a :: rest) acc
        = match alistLookup robj a with
          | none => .error .keyError
          | some v => fillNestedLoop robj rest (alistSet acc a v) := rfl
    have hstep : fillNestedLoop robj (a :: rest) acc
        = fillNestedLoop robj rest (alistSet acc a v) := by
      rw [hcons, hv]
    have hfreea : alistLookup acc a = none := hfree a (by simp)
    have hnd2 : rest.Nodup := (List.nodup_cons.mp hnd).2
    have hna : a ∉ rest := (List.nodup_cons.mp hnd).1
    rw [hstep, alistSet_append acc a v hfreea,
      ih (acc ++ [(a, v)]) hnd2 (fun b hb => hsome b (by simp [hb])) (fun b hb => ?_)]
    · simp [hv]
    · rw [alistLookup_append_right _ _ _ (hfree b (by simp [hb]))]
      have hab : ¬ ((a : String) = b) := fun hh => hna (hh ▸ hb)
      simp [alistLookup, hab]

/-- C2: the projection rule. In flatten mode the scalar value of the first
(single) declared remote attribute is returned; in nested mode the result
is a mapping whose keys are exactly the declared remote attributes in
declared order, with values taken verbatim from the remote record (any
extra attribute of the remote record is dropped, since the keys of the
output are exactly the declared ones). -/
theorem c2_projection_rule (rf : RemoteField) (robj : RemoteRecord) :
    (rf.flat = true → ∀ a rest v, rf.remote_sources = a :: rest →
      alistLookup robj a = some v → fillRemoteField rf robj = .ok v) ∧
    (rf.flat = false → rf.remote_sources.Nodup →
      (∀ a ∈ rf.remote_sources, (alistLookup robj a).isSome) →
      fillRemoteField rf robj =
        .ok (.dict (rf.remote_sources.map
          (fun a => (a, (alistLookup robj a).getD .null))))) := by
  constructor
  · intro hf a rest v hsrc hv
    unfold fillRemoteField
    rw [hf, hsrc]
    simp [hv]
  · intro hf hnd hsome
    unfold fillRemoteField
    rw [hf]
    simp only [Bool.false_eq_true, if_false]
    rw [fillNestedLoop_eq robj rf.remote_sources [] hnd hsome
      (fun a _ => by simp [alistLookup])]
    simp

/-- C2 witness: the round-trip example of the spec. A nested spec over
`(id, name)` projects `{id: 2001, name: X, extra: y}` to exactly
`{id: 2001, name: X}`, and aside a flat spec over `(name,)` projects the
same remote record to the scalar `X`. -/
theorem c2_projection_rule_witness :
    fillRemoteField
      (⟨"thing_id", ["id", "name"], false, [], fun _ => .error .keyError⟩ : RemoteField)
      [("id", .int 2001), ("name", .str "X"), ("extra", .str "y")]
      = .ok (.dict [("id", .int 2001), ("name", .str "X")]) ∧
    fillRemoteField
      (⟨"thing_id", ["name"], true, [], fun _ => .error .keyError⟩ : RemoteField)
      [("id", .int 2001), ("name", .str "X"), ("extra", .str "y")]
      = .ok (.str "X") := by
  constructor
  · have h := (c2_projection_rule
      (⟨"thing_id", ["id", "name"], false, [], fun _ => .error .keyError⟩ : RemoteField)
      [("id", .int 2001), ("name", .str "X"), ("extra", .str "y")]).2
      rfl (by decide) (by decide)
    simpa using h
  · exact (c2_projection_rule
      (⟨"thing_id", ["name"], true, [], fun _ => .error .keyError⟩ : RemoteField)
      [("id", .int 2001), ("name", .str "X"), ("extra", .str "y")]).1
      rfl "name" [] (.str "X") rfl rfl

/-- Resolving a single spec on the single-record path is the single step
(the spec loop with one iteration). -/
theorem addObj_singleton (n : String) (rf : RemoteField) (d : Record) :
    addRemoteFieldsToObj [(n, rf)] d = stepObj n rf d := by
  unfold addRemoteFieldsToObj
  cases h : stepObj n rf d with
  | mk tr res =>
    cases res <;> simp [addRemoteFieldsToObj]

/-- C5: on the single-record path a record whose join key is explicitly
null resolves the field to null with zero network calls: the detail
endpoint is never invoked for that spec. -/
theorem c5_null_join_key (n : String) (rf : RemoteField) (d : Record)
    (h : alistLookup d rf.source = some .null) :
    addRemoteFieldsToObj [(n, rf)] d = ([], .ok (alistSet d n .null)) := by
  rw [addObj_singleton]
  unfold stepObj stepOutcome
  rw [h]
  cases hc : alistContains d n <;> simp [tryBranch]

/-- C5 witness: a concrete record with a null join key resolves to null
without any network call. -/
theorem c5_null_join_key_witness :
    addRemoteFieldsToObj
      [("thing", (⟨"thing_id", ["id", "name"], false, [],
        fun pk => .ok [("id", pk), ("name", .str "B")]⟩ : RemoteField))]
      [("id", .int 3), ("thing", .null), ("thing_id", .null)]
      = ([], .ok [("id", .int 3), ("thing", .null), ("thing_id", .null)]) := by
  have h := c5_null_join_key "thing"
    (⟨"thing_id", ["id", "name"], false, [],
      fun pk => .ok [("id", pk), ("name", .str "B")]⟩ : RemoteField)
    [("id", .int 3), ("thing", .null), ("thing_id", .null)] rfl
  simpa using h

/-- A detail call whose endpoint raises a not-found or invalid-request
error (`KeyError` or `ValueError`) is degraded to a null outcome. -/
theorem detailFetch_caught (n : String) (rf : RemoteField) (pk : Value) (e : PyErr)
    (hde : rf.detailEndpoint pk = .error e) (he : e = .keyError ∨ e = .valueError) :
    detailFetch n rf pk = ([.detailCall n pk], .ok .null) := by
  unfold detailFetch
  rw [hde]
  rcases he with h | h <;> subst h <;> rfl

/-- A detail call whose endpoint raises any other error propagates it. -/
theorem detailFetch_other (n : String) (rf : RemoteField) (pk : Value) (e : PyErr)
    (hde : rf.detailEndpoint pk = .error e)
    (h1 : ¬ e = .keyError) (h2 : ¬ e = .valueError) :
    detailFetch n rf pk = ([.detailCall n pk], .error e) := by
  unfold detailFetch
  rw [hde]
  cases e with
  | keyError => exact absurd rfl h1
  | valueError => exact absurd rfl h2
  | indexError => rfl
  | otherError => rfl

/-- When the join key is present, non-null, and the skip condition does not
hold, the single-record step performs the detail fetch. -/
theorem stepOutcome_detail (n : String) (rf : RemoteField) (b : Bool) (pk : Value)
    (hnn : ¬ pk = .null) (hskip : (b && pk.isDict) = false) :
    stepOutcome n rf b (some pk) = detailFetch n rf pk := by
  cases pk with
  | null => exact absurd rfl hnn
  | int m => cases b <;> simp [stepOutcome, tryBranch]
  | str s => cases b <;> simp [stepOutcome, tryBranch]
  | dict m =>
    cases b with
    | false => simp [stepOutcome, tryBranch]
    | true => simp [Value.isDict] at hskip

/-- C4: on the single-record path, when the detail lookup fails with a
not-found or invalid-request condition (`KeyError` or `ValueError` from the
transport), resolve writes null for the field and does not propagate; any
other failure raised by the endpoint propagates out. -/
theorem c4_detail_failures (n : String) (rf : RemoteField) (d : Record) (pk : Value)
    (hsrc : alistLookup d rf.source = some pk) (hnn : ¬ pk = .null)
    (hskip : (alistContains d n && pk.isDict) = false) :
    (∀ e, rf.detailEndpoint pk = .error e → (e = .keyError ∨ e = .valueError) →
      addRemoteFieldsToObj [(n, rf)] d
        = ([.detailCall n pk], .ok (alistSet d n .null))) ∧
    (∀ e, rf.detailEndpoint pk = .error e → ¬ e = .keyError → ¬ e = .valueError →
      addRemoteFieldsToObj [(n, rf)] d = ([.detailCall n pk], .error e)) := by
  have hso : stepOutcome n rf (alistContains d n) (alistLookup d rf.source)
      = detailFetch n rf pk := by
    rw [hsrc]
    exact stepOutcome_detail n rf _ pk hnn hskip
  constructor
  · intro e hde he
    rw [addObj_singleton]
    unfold stepObj
    rw [hso, detailFetch_caught n rf pk e hde he]
  · intro e hde h1 h2
    rw [addObj_singleton]
    unfold stepObj
    rw [hso, detailFetch_other n rf pk e hde h1 h2]

/-- C4 witness: a concrete invalid-request failure degrades to null, and a
concrete transport failure of another kind propagates. -/
theorem c4_detail_failures_witness :
    addRemoteFieldsToObj
      [("thing", (⟨"thing_id", ["id", "name"], false, [],
        fun _ => .error .valueError⟩ : RemoteField))]
      [("id", .int 3), ("thing", .int 0), ("thing_id", .int 0)]
      = ([.detailCall "thing" (.int 0)],
         .ok [("id", .int 3), ("thing", .null), ("thing_id", .int 0)]) ∧
    addRemoteFieldsToObj
      [("thing", (⟨"thing_id", ["id", "name"], false, [],
        fun _ => .error .otherError⟩ : RemoteField))]
      [("id", .int 3), ("thing", .int 0), ("thing_id", .int 0)]
      = ([.detailCall "thing" (.int 0)], .error .otherError) := by
  constructor
  · have h := (c4_detail_failures "thing"
      (⟨"thing_id", ["id", "name"], false, [], fun _ => .error .valueError⟩ : RemoteField)
      [("id", .int 3), ("thing", .int 0), ("thing_id", .int 0)] (.int 0)
      rfl (by decide) (by decide)).1 .valueError rfl (Or.inr rfl)
    simpa using h
  · have h := (c4_detail_failures "thing"
      (⟨"thing_id", ["id", "name"], false, [], fun _ => .error .otherError⟩ : RemoteField)
      [("id", .int 3), ("thing", .int 0), ("thing_id", .int 0)] (.int 0)
      rfl (by decide) (by decide)).2 .otherError rfl (by decide) (by decide)
    simpa using h

/-- C7 counterexample: a record whose declared output field is already
populated with a nested mapping while the join-key source holds a plain pk.
The claim predicts no detail call and reuse of the existing mapping; the
code tests the source attribute instead, so it invokes the detail endpoint
and overwrites the field. -/
theorem c7_counterexample :
    addRemoteFieldsToObj
      [("thing", (⟨"thing_id", ["id", "name"], false, [],
        fun pk => .ok [("id", pk), ("name", .str "B")]⟩ : RemoteField))]
      [("thing", .dict [("id", .int 1)]), ("thing_id", .int 5)]
      = ([.detailCall "thing" (.int 5)],
         .ok [("thing", .dict [("id", .int 5), ("name", .str "B")]),
              ("thing_id", .int 5)]) := rfl

/-- C7 amended: on the single-record path, when the output field name is
present in the record and the join-key source attribute holds a nested
mapping, resolve skips the remote call entirely (no network call is made
for that spec) and writes the mapping held by the source attribute as the
resolved value of the field. -/
theorem c7_source_expanded_skip (n : String) (rf : RemoteField) (d : Record)
    (m : List (String × Value))
    (hn : alistContains d n = true) (hs : alistLookup d rf.source = some (.dict m)) :
    addRemoteFieldsToObj [(n, rf)] d = ([], .ok (alistSet d n (.dict m))) := by
  rw [addObj_singleton]
  unfold stepObj
  rw [hs, hn]
  rfl

/-- C7 amended witness: a concrete record with a dict-valued source skips
the call and copies the source value. -/
theorem c7_source_expanded_skip_witness :
    addRemoteFieldsToObj
      [("thing", (⟨"thing_id", ["id", "name"], false, [],
        fun pk => .ok [("id", pk), ("name", .str "B")]⟩ : RemoteField))]
      [("thing", .int 9), ("thing_id", .dict [("id", .int 9)])]
      = ([], .ok [("thing", .dict [("id", .int 9)]),
                  ("thing_id", .dict [("id", .int 9)])]) := by
  have h := c7_source_expanded_skip "thing"
    (⟨"thing_id", ["id", "name"], false, [],
      fun pk => .ok [("id", pk), ("name", .str "B")]⟩ : RemoteField)
    [("thing", .int 9), ("thing_id", .dict [("id", .int 9)])]
    [("id", .int 9)] rfl rfl
  simpa using h

/-- C6 counterexample: the remote record returned by the list endpoint
lacks the declared attribute "name"; the claim predicts a propagated
failure, but the collection path catches the `KeyError` and resolves the
field to null, returning successfully. -/
theorem c6_counterexample :
    addRemoteFieldsToList
      [("thing", (⟨"thing_id", ["id", "name"], false, [[("id", .int 1)]],
        fun _ => .error .otherError⟩ : RemoteField))]
      [[("id", .int 10), ("thing", .int 1), ("thing_id", .int 1)]]
      = ([.listCall "thing"],
         .ok [[("id", .int 10), ("thing", .null), ("thing_id", .int 1)]]) := rfl

/-- C6 amended: whenever a fetched remote record lacks a declared projected
attribute, the resulting `KeyError` is caught and the field is resolved to
null, on the collection path and on the single-record path alike; it never
propagates out of resolve. -/
theorem c6_missing_attribute_null (n : String) (rf : RemoteField) :
    (∀ idx d pk robj, alistLookup d rf.source = some pk →
      alistLookup idx pk = some robj →
      fillRemoteField rf robj = .error .keyError →
      listPathStep n rf idx d = .ok (alistSet d n .null)) ∧
    (∀ d pk robj, alistLookup d rf.source = some pk → ¬ pk = .null →
      (alistContains d n && pk.isDict) = false →
      rf.detailEndpoint pk = .ok robj →
      fillRemoteField rf robj = .error .keyError →
      stepObj n rf d = ([.detailCall n pk], .ok (alistSet d n .null))) := by
  constructor
  · intro idx d pk robj h1 h2 h3
    simp only [listPathStep, h1, h2, h3]
  · intro d pk robj h1 h2 h3 h4 h5
    have hso : stepOutcome n rf (alistContains d n) (alistLookup d rf.source)
        = detailFetch n rf pk := by
      rw [h1]
      exact stepOutcome_detail n rf _ pk h2 h3
    simp only [stepObj, hso, detailFetch, h4, h5]

/-- C6 amended witness: a concrete remote record lacking the declared
attribute resolves to null on both paths. -/
theorem c6_missing_attribute_null_witness :
    listPathStep "thing"
      (⟨"thing_id", ["id", "name"], false, [],
        fun _ => .ok [("id", .int 1)]⟩ : RemoteField)
      [(.int 1, [("id", .int 1)])]
      [("thing", .int 1), ("thing_id", .int 1)]
      = .ok [("thing", .null), ("thing_id", .int 1)] ∧
    stepObj "thing"
      (⟨"thing_id", ["id", "name"], false, [],
        fun _ => .ok [("id", .int 1)]⟩ : RemoteField)
      [("thing", .int 1), ("thing_id", .int 1)]
      = ([.detailCall "thing" (.int 1)],
         .ok [("thing", .null), ("thing_id", .int 1)]) := by
  constructor
  · have h := (c6_missing_attribute_null "thing"
      (⟨"thing_id", ["id", "name"], false, [],
        fun _ => .ok [("id", .int 1)]⟩ : RemoteField)).1
      [(.int 1, [("id", .int 1)])]
      [("thing", .int 1), ("thing_id", .int 1)] (.int 1) [("id", .int 1)]
      rfl rfl rfl
    simpa using h
  · have h := (c6_missing_attribute_null "thing"
      (⟨"thing_id", ["id", "name"], false, [],
        fun _ => .ok [("id", .int 1)]⟩ : RemoteField)).2
      [("thing", .int 1), ("thing_id", .int 1)] (.int 1) [("id", .int 1)]
      rfl (by decide) (by decide) rfl rfl
    simpa using h

/-- Mapping a fallible function over an appended list splits into the two
halves when both succeed. -/
theorem mapExcept_ok_append {α β : Type} (f : α → Except PyErr β) (l1 : List α)
    (r1 : List β) (h1 : mapExcept f l1 = .ok r1) (l2 : List α) (r2 : List β)
    (h2 : mapExcept f l2 = .ok r2) :
    mapExcept f (l1 ++ l2) = .ok (r1 ++ r2) := by
  induction l1 generalizing r1 with
  | nil =>
    unfold mapExcept at h1
    injection h1 with h1
    subst h1
    simpa using h2
  | cons a rest ih =>
    unfold mapExcept at h1
    cases hfa : f a with
    | error e =>
      rw [hfa] at h1
      exact absurd h1 (by simp)
    | ok b =>
      rw [hfa] at h1
      cases hrest : mapExcept f rest with
      | error e =>
        rw [hrest] at h1
        exact absurd h1 (by simp)
      | ok bs =>
        rw [hrest] at h1
        injection h1 with h1
        subst h1
        show mapExcept f (a :: (rest ++ l2)) = _
        simp only [mapExcept, hfa, ih bs hrest, List.cons_append]

/-- C3: on the collection path, a record whose join key value is not
present in the remote-id index resolves to an explicit null under the
output name without raising, while every other record of the same batch
resolves normally (the step function is applied to each record
independently and the results of the surrounding records are untouched). -/
theorem c3_unknown_key_in_collection (n : String) (rf : RemoteField)
    (idx : List (Value × RemoteRecord)) (pre post : List Record) (d : Record)
    (pk : Value) (pre2 post2 : List Record)
    (hidx : buildIndex rf.listEndpoint [] = .ok idx)
    (hsrc : alistLookup d rf.source = some pk)
    (hmiss : alistLookup idx pk = none)
    (hpre : mapExcept (listPathStep n rf idx) pre = .ok pre2)
    (hpost : mapExcept (listPathStep n rf idx) post = .ok post2) :
    addRemoteFieldsToList [(n, rf)] (pre ++ d :: post)
      = ([.listCall n], .ok (pre2 ++ alistSet d n .null :: post2)) := by
  have hd : listPathStep n rf idx d = .ok (alistSet d n .null) := by
    simp only [listPathStep, hsrc, hmiss]
  have hcons : mapExcept (listPathStep n rf idx) (d :: post)
      = .ok (alistSet d n .null :: post2) := by
    simp only [mapExcept, hd, hpost]
  have hall := mapExcept_ok_append (listPathStep n rf idx) pre pre2 hpre
    (d :: post) (alistSet d n .null :: post2) hcons
  simp only [addRemoteFieldsToList, hidx, hall]

/-- C3 witness: a concrete batch where the pk of the middle record is unknown to
the index resolves it to null and the neighbouring records normally. -/
theorem c3_unknown_key_in_collection_witness :
    addRemoteFieldsToList
      [("thing", (⟨"thing_id", ["id"], false,
        [[("id", .int 1)], [("id", .int 2)]],
        fun _ => .error .keyError⟩ : RemoteField))]
      [[("thing", .int 1), ("thing_id", .int 1)],
       [("thing", .int 9), ("thing_id", .int 9)],
       [("thing", .int 2), ("thing_id", .int 2)]]
      = ([.listCall "thing"],
         .ok [[("thing", .dict [("id", .int 1)]), ("thing_id", .int 1)],
              [("thing", .null), ("thing_id", .int 9)],
              [("thing", .dict [("id", .int 2)]), ("thing_id", .int 2)]]) := by
  have h := c3_unknown_key_in_collection "thing"
    (⟨"thing_id", ["id"], false, [[("id", .int 1)], [("id", .int 2)]],
      fun _ => .error .keyError⟩ : RemoteField)
    [(.int 1, [("id", .int 1)]), (.int 2, [("id", .int 2)])]
    [[("thing", .int 1), ("thing_id", .int 1)]]
    [[("thing", .int 2), ("thing_id", .int 2)]]
    [("thing", .int 9), ("thing_id", .int 9)] (.int 9)
    [[("thing", .dict [("id", .int 1)]), ("thing_id", .int 1)]]
    [[("thing", .dict [("id", .int 2)]), ("thing_id", .int 2)]]
    rfl rfl rfl rfl rfl
  simpa using h

/-- Unfolding of the collection path on one spec whose index build and
record loop succeed. -/
theorem addList_cons_ok (n : String) (rf : RemoteField) (rest : List (String × RemoteField))
    (data : List Record) (idx : List (Value × RemoteRecord)) (data2 : List Record)
    (hb : buildIndex rf.listEndpoint [] = .ok idx)
    (hm : mapExcept (listPathStep n rf idx) data = .ok data2) :
    addRemoteFieldsToList ((n, rf) :: rest) data
      = (.listCall n :: (addRemoteFieldsToList rest data2).1,
         (addRemoteFieldsToList rest data2).2) := by
  simp only [addRemoteFieldsToList, hb, hm]

/-- C1: for every collection and every spec list, when resolution succeeds
the call trace is exactly one list call per spec, in spec order, regardless
of the number of records (the record count never appears in the trace), and
no detail call is ever made on the collection path. -/
theorem c1_one_list_call_per_spec (rfs : List (String × RemoteField)) :
    ∀ data out, (addRemoteFieldsToList rfs data).2 = .ok out →
    (addRemoteFieldsToList rfs data).1 = rfs.map (fun p => NetCall.listCall p.1) ∧
    ∀ m pk, NetCall.detailCall m pk ∉ (addRemoteFieldsToList rfs data).1 := by
  induction rfs with
  | nil =>
    intro data out h
    constructor
    · rfl
    · intro m pk hmem
      simp [addRemoteFieldsToList] at hmem
  | cons p rest ih =>
    intro data out h
    obtain ⟨n, rf⟩ := p
    cases hb : buildIndex rf.listEndpoint [] with
    | error e =>
      have heq : addRemoteFieldsToList ((n, rf) :: rest) data = ([.listCall n], .error e) := by
        simp only [addRemoteFieldsToList, hb]
      rw [heq] at h
      exact absurd h (by simp)
    | ok idx =>
      cases hm : mapExcept (listPathStep n rf idx) data with
      | error e =>
        have heq : addRemoteFieldsToList ((n, rf) :: rest) data
            = ([.listCall n], .error e) := by
          simp only [addRemoteFieldsToList, hb, hm]
        rw [heq] at h
        exact absurd h (by simp)
      | ok data2 =>
        rw [addList_cons_ok n rf rest data idx data2 hb hm] at h ⊢
        have hrec := ih data2 out h
        constructor
        · simp [hrec.1]
        · intro m pk hmem
          rw [List.mem_cons] at hmem
          rcases hmem with hmem | hmem
          · exact absurd hmem (by simp)
          · exact hrec.2 m pk hmem

/-- C1 witness: a single spec over an empty collection (zero records) makes
exactly one list call and no detail call. -/
theorem c1_one_list_call_witness :
    (addRemoteFieldsToList
      [("thing", (⟨"thing_id", ["id"], false, [[("id", .int 1)]],
        fun _ => .error .keyError⟩ : RemoteField))] ([] : List Record)).1
      = [NetCall.listCall "thing"] :=
  (c1_one_list_call_per_spec
    [("thing", (⟨"thing_id", ["id"], false, [[("id", .int 1)]],
      fun _ => .error .keyError⟩ : RemoteField))] [] [] rfl).1

/-- A successful `del` removes exactly the requested binding. -/
theorem pyDel_ok (d : Record) (k : String) (d2 : Record) (h : pyDel d k = .ok d2) :
    d2 = alistErase d k := by
  unfold pyDel at h
  by_cases hc : alistContains d k = true
  · rw [if_pos hc] at h
    injection h with h
    exact h.symm
  · rw [if_neg hc] at h
    exact absurd h (by simp)

/-- Unfolding of the deletion loop on a successful head deletion. -/
theorem pyDelAll_cons (d : Record) (k : String) (rest : List String) (d3 : Record)
    (hp : pyDel d k = .ok d3) : pyDelAll d (k :: rest) = pyDelAll d3 rest := by
  simp only [pyDelAll, hp]

/-- The deletion loop never reintroduces an absent key. -/
theorem pyDelAll_preserves_none (ns : List String) :
    ∀ d d2 s, pyDelAll d ns = .ok d2 → alistLookup d s = none →
    alistLookup d2 s = none := by
  induction ns with
  | nil =>
    intro d d2 s h hs
    unfold pyDelAll at h
    injection h with h
    subst h
    exact hs
  | cons k rest ih =>
    intro d d2 s h hs
    cases hp : pyDel d k with
    | error e =>
      simp only [pyDelAll, hp] at h
      exact absurd h (by simp)
    | ok d3 =>
      rw [pyDelAll_cons d k rest d3 hp] at h
      have hd3 := pyDel_ok d k d3 hp
      subst hd3
      refine ih _ d2 s h ?_
      rw [alistLookup_erase]
      by_cases hsk : s = k <;> simp [hsk, hs]

/-- After the deletion loop succeeds, every deleted key is absent. -/
theorem pyDelAll_removes (ns : List String) :
    ∀ d d2, pyDelAll d ns = .ok d2 → ∀ s ∈ ns, alistLookup d2 s = none := by
  induction ns with
  | nil =>
    intro d d2 h s hs
    exact absurd hs (by simp)
  | cons k rest ih =>
    intro d d2 h s hs
    cases hp : pyDel d k with
    | error e =>
      simp only [pyDelAll, hp] at h
      exact absurd h (by simp)
    | ok d3 =>
      rw [pyDelAll_cons d k rest d3 hp] at h
      have hd3 := pyDel_ok d k d3 hp
      subst hd3
      rcases List.mem_cons.mp hs with hs | hs
      · subst hs
        refine pyDelAll_preserves_none rest _ d2 s h ?_
        rw [alistLookup_erase]
        simp
      · exact ih _ d2 h s hs

/-- Every record of a successful `mapExcept` run comes from some input
record. -/
theorem mapExcept_mem {α β : Type} (f : α → Except PyErr β) (l : List α) :
    ∀ r, mapExcept f l = .ok r → ∀ b ∈ r, ∃ a ∈ l, f a = .ok b := by
  induction l with
  | nil =>
    intro r h b hb
    unfold mapExcept at h
    injection h with h
    subst h
    exact absurd hb (by simp)
  | cons a rest ih =>
    intro r h b hb
    cases hfa : f a with
    | error e =>
      simp only [mapExcept, hfa] at h
      exact absurd h (by simp)
    | ok c =>
      cases hrest : mapExcept f rest with
      | error e =>
        simp only [mapExcept, hfa, hrest] at h
        exact absurd h (by simp)
      | ok cs =>
        simp only [mapExcept, hfa, hrest] at h
        injection h with h
        subst h
        rcases List.mem_cons.mp hb with hb | hb
        · subst hb
          exact ⟨a, by simp, hfa⟩
        · obtain ⟨a2, ha2, hfa2⟩ := ih cs hrest b hb
          exact ⟨a2, by simp [ha2], hfa2⟩

/-- C8: every bookkeeping join-key source that was added only to satisfy
resolution (a source not among the originally declared fields) is removed
from each returned record before the data property returns, on the
collection path and on the single-record path alike: no such field appears
in the final output. -/
theorem c8_bookkeeping_stripped (existing : List String)
    (rfs : List (String × RemoteField)) :
    (∀ objs recs, (dataList existing rfs objs).2 = .ok recs →
      ∀ r ∈ recs, ∀ s ∈ newSources existing rfs, alistLookup r s = none) ∧
    (∀ obj rec, (dataObj existing rfs obj).2 = .ok rec →
      ∀ s ∈ newSources existing rfs, alistLookup rec s = none) := by
  constructor
  · intro objs recs h r hr s hs
    unfold dataList at h
    cases hres : (addRemoteFieldsToList rfs
        (objs.map (serializeObj (existing ++ newSources existing rfs) rfs))).2 with
    | error e =>
      simp only [hres] at h
      exact absurd h (by simp)
    | ok recs0 =>
      simp only [hres] at h
      obtain ⟨a, _, hdel⟩ := mapExcept_mem _ recs0 recs h r hr
      exact pyDelAll_removes (newSources existing rfs) a r hdel s hs
  · intro obj rec h s hs
    unfold dataObj at h
    cases hres : (addRemoteFieldsToObj rfs
        (serializeObj (existing ++ newSources existing rfs) rfs obj)).2 with
    | error e =>
      simp only [hres] at h
      exact absurd h (by simp)
    | ok d =>
      simp only [hres] at h
      exact pyDelAll_removes (newSources existing rfs) d rec h s hs

/-- C8 witness: on a concrete single-record resolution, the bookkeeping
source attribute is absent from the returned record. -/
theorem c8_bookkeeping_stripped_witness :
    alistLookup [("id", Value.int 7),
      ("thing", Value.dict [("id", .int 2001), ("name", .str "B")])] "thing_id" = none :=
  (c8_bookkeeping_stripped ["id", "thing"]
    [("thing", (⟨"thing_id", ["id", "name"], false, [],
      fun pk => .ok [("id", pk), ("name", .str "B")]⟩ : RemoteField))]).2
    [("id", .int 7), ("thing_id", .int 2001)]
    [("id", Value.int 7),
      ("thing", Value.dict [("id", .int 2001), ("name", .str "B")])]
    rfl "thing_id" (by decide)

/-- Unfolding of the single-record spec loop on a successful head step. -/
theorem addObj_cons (n : String) (rf : RemoteField) (rest : List (String × RemoteField))
    (d d2 : Record) (tr : List NetCall) (hs : stepObj n rf d = (tr, .ok d2)) :
    addRemoteFieldsToObj ((n, rf) :: rest) d
      = (tr ++ (addRemoteFieldsToObj rest d2).1, (addRemoteFieldsToObj rest d2).2) := by
  simp only [addRemoteFieldsToObj, hs]

/-- Unfolding of the single-record spec loop on a raising head step. -/
theorem addObj_cons_error (n : String) (rf : RemoteField)
    (rest : List (String × RemoteField)) (d : Record) (tr : List NetCall) (e : PyErr)
    (hs : stepObj n rf d = (tr, .error e)) :
    addRemoteFieldsToObj ((n, rf) :: rest) d = (tr, .error e) := by
  simp only [addRemoteFieldsToObj, hs]

/-- A successful single-record step is an assignment of the outcome value
under the output name. -/
theorem stepObj_ok_shape (n : String) (rf : RemoteField) (d d2 : Record)
    (tr : List NetCall) (h : stepObj n rf d = (tr, .ok d2)) :
    ∃ v, stepOutcome n rf (alistContains d n) (alistLookup d rf.source) = (tr, .ok v) ∧
      d2 = alistSet d n v := by
  unfold stepObj at h
  cases hso : stepOutcome n rf (alistContains d n) (alistLookup d rf.source) with
  | mk tr2 res =>
    rw [hso] at h
    cases res with
    | ok v =>
      injection h with h1 h2
      injection h2 with h2
      subst h1
      exact ⟨v, rfl, h2.symm⟩
    | error e =>
      injection h with h1 h2
      exact absurd h2 (by simp)

/-- Assembling a single-record step from its outcome. -/
theorem stepObj_of_outcome (n : String) (rf : RemoteField) (d : Record)
    (tr : List NetCall) (v : Value)
    (h : stepOutcome n rf (alistContains d n) (alistLookup d rf.source) = (tr, .ok v)) :
    stepObj n rf d = (tr, .ok (alistSet d n v)) := by
  simp only [stepObj, h]

/-- The single-record loop only assigns the declared output names: every
other attribute keeps its binding. -/
theorem addObj_lookup_preserved (rfs : List (String × RemoteField)) :
    ∀ d d2 k, addRemoteFieldsToObj rfs d = ((addRemoteFieldsToObj rfs d).1, .ok d2) →
    (∀ p ∈ rfs, ¬ (p.1 = k)) → alistLookup d2 k = alistLookup d k := by
  induction rfs with
  | nil =>
    intro d d2 k h hk
    unfold addRemoteFieldsToObj at h
    injection h with h1 h2
    injection h2 with h2
    subst h2
    rfl
  | cons p rest ih =>
    intro d d2 k h hk
    obtain ⟨n, rf⟩ := p
    cases hs : stepObj n rf d with
    | mk tr1 res =>
      cases res with
      | error e =>
        rw [addObj_cons_error n rf rest d tr1 e hs] at h
        injection h with h1 h2
        exact absurd h2 (by simp)
      | ok d3 =>
        rw [addObj_cons n rf rest d d3 tr1 hs] at h
        injection h with h1 h2
        have hrest : addRemoteFieldsToObj rest d3
            = ((addRemoteFieldsToObj rest d3).1, .ok d2) := by
          rw [← h2]
        obtain ⟨v, hso, hd3⟩ := stepObj_ok_shape n rf d d3 tr1 hs
        subst hd3
        rw [ih _ d2 k hrest (fun q hq => hk q (by simp [hq]))]
        rw [alistLookup_set]
        have hkn : ¬ (k = n) := fun hh => hk (n, rf) (by simp) hh.symm
        rw [if_neg hkn]

/-- Presence of a binding is preserved by the single-record loop. -/
theorem addObj_contains_mono (rfs : List (String × RemoteField)) :
    ∀ d d2 k, addRemoteFieldsToObj rfs d = ((addRemoteFieldsToObj rfs d).1, .ok d2) →
    alistContains d k = true → alistContains d2 k = true := by
  induction rfs with
  | nil =>
    intro d d2 k h hc
    unfold addRemoteFieldsToObj at h
    injection h with h1 h2
    injection h2 with h2
    subst h2
    exact hc
  | cons p rest ih =>
    intro d d2 k h hc
    obtain ⟨n, rf⟩ := p
    cases hs : stepObj n rf d with
    | mk tr1 res =>
      cases res with
      | error e =>
        rw [addObj_cons_error n rf rest d tr1 e hs] at h
        injection h with h1 h2
        exact absurd h2 (by simp)
      | ok d3 =>
        rw [addObj_cons n rf rest d d3 tr1 hs] at h
        injection h with h1 h2
        have hrest : addRemoteFieldsToObj rest d3
            = ((addRemoteFieldsToObj rest d3).1, .ok d2) := by
          rw [← h2]
        obtain ⟨v, hso, hd3⟩ := stepObj_ok_shape n rf d d3 tr1 hs
        subst hd3
        exact ih _ d2 k hrest (alistContains_set d n v k hc)

/-- Resolving an already-resolved single record a second time with the
same specs yields the same record, and when the already-expanded check
applies to the specs (every join-key source holds a nested mapping in the
resolved record) the second resolution makes no network call at all.
Hypotheses: the declared output names are distinct, no output name is also
used as a join-key source, and every output name is present in the record
(as the serialization phase guarantees). -/
theorem addObj_resolve_stable (rfs : List (String × RemoteField)) :
    ∀ d tr d2, (rfs.map Prod.fst).Nodup →
    (∀ p ∈ rfs, ∀ q ∈ rfs, ¬ (p.1 = q.2.source)) →
    (∀ p ∈ rfs, alistContains d p.1 = true) →
    addRemoteFieldsToObj rfs d = (tr, .ok d2) →
    (addRemoteFieldsToObj rfs d2).2 = .ok d2 ∧
    ((∀ p ∈ rfs, ((alistLookup d2 p.2.source).getD .null).isDict = true) →
      (addRemoteFieldsToObj rfs d2).1 = []) := by
  induction rfs with
  | nil =>
    intro d tr d2 h1 h2 h3 h4
    unfold addRemoteFieldsToObj at h4
    injection h4 with h41 h42
    injection h42 with h42
    subst h42
    exact ⟨rfl, fun _ => rfl⟩
  | cons p rest ih =>
    intro d tr d2 h1 h2 h3 h4
    obtain ⟨n, rf⟩ := p
    cases hs : stepObj n rf d with
    | mk tr1 res =>
      cases res with
      | error e =>
        rw [addObj_cons_error n rf rest d tr1 e hs] at h4
        injection h4 with h41 h42
        exact absurd h42 (by simp)
      | ok d3 =>
        rw [addObj_cons n rf rest d d3 tr1 hs] at h4
        injection h4 with h41 h42
        obtain ⟨v, hso, hd3⟩ := stepObj_ok_shape n rf d d3 tr1 hs
        subst hd3
        have hrest : addRemoteFieldsToObj rest (alistSet d n v)
            = ((addRemoteFieldsToObj rest (alistSet d n v)).1, .ok d2) := by
          rw [← h42]
        have hnotin : (n : String) ∉ rest.map Prod.fst := (List.nodup_cons.mp h1).1
        have hnd : (rest.map Prod.fst).Nodup := (List.nodup_cons.mp h1).2
        have hrestk : ∀ q ∈ rest, ¬ (q.1 = n) := by
          intro q hq hh
          exact hnotin (hh ▸ List.mem_map_of_mem Prod.fst hq)
        have hlook_n : alistLookup d2 n = some v := by
          rw [addObj_lookup_preserved rest _ d2 n hrest hrestk, alistLookup_set]
          simp
        have hsrc_pres : alistLookup d2 rf.source = alistLookup d rf.source := by
          have h2src : ∀ q ∈ rest, ¬ (q.1 = rf.source) := by
            intro q hq
            exact h2 q (by simp [hq]) (n, rf) (by simp)
          rw [addObj_lookup_preserved rest _ d2 rf.source hrest h2src, alistLookup_set]
          have hsn : ¬ ((rf.source : String) = n) := by
            intro hh
            exact h2 (n, rf) (by simp) (n, rf) (by simp) hh.symm
          rw [if_neg hsn]
        have hcont_d : alistContains d n = true := h3 (n, rf) (by simp)
        have hcont_d2 : alistContains d2 n = true := by
          unfold alistContains
          rw [hlook_n]
          rfl
        rw [hcont_d] at hso
        have hso2 : stepOutcome n rf (alistContains d2 n) (alistLookup d2 rf.source)
            = (tr1, .ok v) := by
          rw [hcont_d2, hsrc_pres]
          exact hso
        have hstep2 : stepObj n rf d2 = (tr1, .ok d2) := by
          have h := stepObj_of_outcome n rf d2 tr1 v hso2
          rw [alistSet_self d2 n v hlook_n] at h
          exact h
        have h3r : ∀ q ∈ rest, alistContains (alistSet d n v) q.1 = true :=
          fun q hq => alistContains_set d n v q.1 (h3 q (by simp [hq]))
        have h2r : ∀ p ∈ rest, ∀ q ∈ rest, ¬ (p.1 = q.2.source) :=
          fun p hp q hq => h2 p (by simp [hp]) q (by simp [hq])
        have hihx := ih (alistSet d n v) _ d2 hnd h2r h3r hrest
        rw [addObj_cons n rf rest d2 d2 tr1 hstep2]
        constructor
        · exact hihx.1
        · intro hall
          have htr1 : tr1 = [] := by
            have hdict := hall (n, rf) (by simp)
            rw [hsrc_pres] at hdict
            cases hl : alistLookup d rf.source with
            | none =>
              rw [hl] at hdict
              simp [Value.isDict] at hdict
            | some w =>
              rw [hl] at hdict
              cases w with
              | dict m =>
                rw [hl] at hso
                have hred : stepOutcome n rf true (some (.dict m))
                    = (([] : List NetCall), .ok (.dict m)) := rfl
                rw [hred] at hso
                injection hso with hso1 hso2
                exact hso1.symm
              | null =>
                simp [Value.isDict] at hdict
              | int m =>
                simp [Value.isDict] at hdict
              | str s =>
                simp [Value.isDict] at hdict
          have hrtr : (addRemoteFieldsToObj rest d2).1 = [] :=
            hihx.2 (fun q hq => hall q (by simp [hq]))
          rw [htr1, hrtr]
          rfl

/-- Decomposition of a successful collection resolution on its head spec:
the index build succeeds, the record loop succeeds, and the remaining specs
resolve the intermediate collection to the final one. -/
theorem addList_cons_ok_shape (n : String) (rf : RemoteField)
    (rest : List (String × RemoteField)) (data : List Record) (tr : List NetCall)
    (data2 : List Record)
    (h : addRemoteFieldsToList ((n, rf) :: rest) data = (tr, .ok data2)) :
    ∃ idx data1, buildIndex rf.listEndpoint [] = .ok idx ∧
      mapExcept (listPathStep n rf idx) data = .ok data1 ∧
      addRemoteFieldsToList rest data1
        = ((addRemoteFieldsToList rest data1).1, .ok data2) := by
  cases hb : buildIndex rf.listEndpoint [] with
  | error e =>
    have heq : addRemoteFieldsToList ((n, rf) :: rest) data
        = ([.listCall n], .error e) := by
      simp only [addRemoteFieldsToList, hb]
    rw [heq] at h
    injection h with h1 h2
    exact absurd h2 (by simp)
  | ok idx =>
    cases hm : mapExcept (listPathStep n rf idx) data with
    | error e =>
      have heq : addRemoteFieldsToList ((n, rf) :: rest) data
          = ([.listCall n], .error e) := by
        simp only [addRemoteFieldsToList, hb, hm]
      rw [heq] at h
      injection h with h1 h2
      exact absurd h2 (by simp)
    | ok data1 =>
      rw [addList_cons_ok n rf rest data idx data1 hb hm] at h
      injection h with h1 h2
      refine ⟨idx, data1, rfl, hm, ?_⟩
      rw [← h2]

/-- A successful `mapExcept` run relates input and output pointwise. -/
theorem mapExcept_forall2 {α β : Type} (f : α → Except PyErr β) :
    ∀ l l2, mapExcept f l = .ok l2 →
    List.Forall₂ (fun a b => f a = .ok b) l l2 := by
  intro l
  induction l with
  | nil =>
    intro l2 h
    unfold mapExcept at h
    injection h with h
    subst h
    exact List.Forall₂.nil
  | cons a rest ih =>
    intro l2 h
    cases hfa : f a with
    | error e =>
      simp only [mapExcept, hfa] at h
      exact absurd h (by simp)
    | ok b =>
      cases hrest : mapExcept f rest with
      | error e =>
        simp only [mapExcept, hfa, hrest] at h
        exact absurd h (by simp)
      | ok bs =>
        simp only [mapExcept, hfa, hrest] at h
        injection h with h
        subst h
        exact List.Forall₂.cons hfa (ih bs hrest)

/-- A loop body that succeeds identically on every element makes the whole
loop the identity. -/
theorem mapExcept_id_of_ok {α : Type} (f : α → Except PyErr α) :
    ∀ l, (∀ a ∈ l, f a = .ok a) → mapExcept f l = .ok l := by
  intro l
  induction l with
  | nil => intro h; rfl
  | cons a rest ih =>
    intro h
    simp only [mapExcept, h a (by simp), ih (fun b hb => h b (by simp [hb]))]

/-- Composition of two pointwise relations between lists. -/
theorem forall2_compose {α β γ : Type} {P : α → β → Prop} {Q : β → γ → Prop}
    {R : α → γ → Prop} (hc : ∀ a b c, P a b → Q b c → R a c) :
    ∀ l1 l2 l3, List.Forall₂ P l1 l2 → List.Forall₂ Q l2 l3 →
    List.Forall₂ R l1 l3 := by
  intro l1
  induction l1 with
  | nil =>
    intro l2 l3 h1 h2
    cases h1
    cases h2
    exact List.Forall₂.nil
  | cons a r ih =>
    intro l2 l3 h1 h2
    cases h1 with
    | cons hab h1r =>
      cases h2 with
      | cons hbc h2r =>
        exact List.Forall₂.cons (hc _ _ _ hab hbc) (ih _ _ h1r h2r)

/-- Every element of the right list of a pointwise relation has a partner
on the left. -/
theorem forall2_mem_right {α β : Type} {R : α → β → Prop} :
    ∀ l1 l2, List.Forall₂ R l1 l2 → ∀ b ∈ l2, ∃ a ∈ l1, R a b := by
  intro l1
  induction l1 with
  | nil =>
    intro l2 h b hb
    cases h
    exact absurd hb (by simp)
  | cons a r ih =>
    intro l2 h b hb
    cases h with
    | cons hab hr =>
      rcases List.mem_cons.mp hb with hb | hb
      · subst hb
        exact ⟨a, by simp, hab⟩
      · obtain ⟨a2, ha2, hR⟩ := ih _ hr b hb
        exact ⟨a2, by simp [ha2], hR⟩

/-- A pointwise relation holds between a list and itself when it holds on
every element. -/
theorem forall2_refl {α : Type} {R : α → α → Prop} :
    ∀ l, (∀ a ∈ l, R a a) → List.Forall₂ R l l := by
  intro l
  induction l with
  | nil => intro h; exact List.Forall₂.nil
  | cons a r ih =>
    intro h
    exact List.Forall₂.cons (h a (by simp)) (ih (fun b hb => h b (by simp [hb])))

/-- A successful collection-path step is an assignment under the output
name of a value determined by the join-key source binding alone: the same
value is assigned on any record with the same source binding. -/
theorem listPathStep_shape (n : String) (rf : RemoteField)
    (idx : List (Value × RemoteRecord)) (r r1 : Record)
    (h : listPathStep n rf idx r = .ok r1) :
    ∃ v, r1 = alistSet r n v ∧
      ∀ r2, alistLookup r2 rf.source = alistLookup r rf.source →
        listPathStep n rf idx r2 = .ok (alistSet r2 n v) := by
  cases hsrc : alistLookup r rf.source with
  | none =>
    simp only [listPathStep, hsrc] at h
    exact absurd h (by simp)
  | some pk =>
    cases hidx : alistLookup idx pk with
    | none =>
      simp only [listPathStep, hsrc, hidx] at h
      injection h with h
      exact ⟨.null, h.symm, fun r2 h2 => by simp only [listPathStep, h2, hsrc, hidx]⟩
    | some robj =>
      cases hfill : fillRemoteField rf robj with
      | ok v =>
        simp only [listPathStep, hsrc, hidx, hfill] at h
        injection h with h
        exact ⟨v, h.symm, fun r2 h2 => by simp only [listPathStep, h2, hsrc, hidx, hfill]⟩
      | error e =>
        cases e with
        | keyError =>
          simp only [listPathStep, hsrc, hidx, hfill] at h
          injection h with h
          exact ⟨.null, h.symm,
            fun r2 h2 => by simp only [listPathStep, h2, hsrc, hidx, hfill]⟩
        | valueError =>
          simp only [listPathStep, hsrc, hidx, hfill] at h
          exact absurd h (by simp)
        | indexError =>
          simp only [listPathStep, hsrc, hidx, hfill] at h
          exact absurd h (by simp)
        | otherError =>
          simp only [listPathStep, hsrc, hidx, hfill] at h
          exact absurd h (by simp)

/-- The collection-path loop only assigns the declared output names, on
every record of the collection. -/
theorem addList_lookup_preserved (rfs : List (String × RemoteField)) :
    ∀ data data2,
    addRemoteFieldsToList rfs data
      = ((addRemoteFieldsToList rfs data).1, .ok data2) →
    List.Forall₂
      (fun r r2 => ∀ k, (∀ p ∈ rfs, ¬ (p.1 = k)) → alistLookup r2 k = alistLookup r k)
      data data2 := by
  induction rfs with
  | nil =>
    intro data data2 h
    unfold addRemoteFieldsToList at h
    injection h with h1 h2
    injection h2 with h2
    subst h2
    exact forall2_refl data (fun a _ k _ => rfl)
  | cons p rest ih =>
    intro data data2 h
    obtain ⟨n, rf⟩ := p
    obtain ⟨idx, data1, hb, hm, hrest⟩ := addList_cons_ok_shape n rf rest data _ data2 h
    have F1 := mapExcept_forall2 (listPathStep n rf idx) data data1 hm
    have F2 := ih data1 data2 hrest
    refine forall2_compose ?_ data data1 data2 F1 F2
    intro r r1 r2 hstep hpres k hk
    obtain ⟨v, hr1, _⟩ := listPathStep_shape n rf idx r r1 hstep
    subst hr1
    rw [hpres k (fun q hq => hk q (by simp [hq])), alistLookup_set]
    have hkn : ¬ (k = n) := fun hh => hk (n, rf) (by simp) hh.symm
    rw [if_neg hkn]

/-- Resolving an already-resolved collection a second time with the same
specs yields the same collection. Hypotheses: the declared output names are
distinct and no output name is also used as a join-key source. -/
theorem addList_resolve_stable (rfs : List (String × RemoteField)) :
    ∀ data tr data2, (rfs.map Prod.fst).Nodup →
    (∀ p ∈ rfs, ∀ q ∈ rfs, ¬ (p.1 = q.2.source)) →
    addRemoteFieldsToList rfs data = (tr, .ok data2) →
    (addRemoteFieldsToList rfs data2).2 = .ok data2 := by
  induction rfs with
  | nil =>
    intro data tr data2 h1 h2 h4
    unfold addRemoteFieldsToList at h4
    injection h4 with h41 h42
    injection h42 with h42
    subst h42
    rfl
  | cons p rest ih =>
    intro data tr data2 h1 h2 h4
    obtain ⟨n, rf⟩ := p
    obtain ⟨idx, data1, hb, hm, hrest⟩ := addList_cons_ok_shape n rf rest data tr data2 h4
    have hnotin : (n : String) ∉ rest.map Prod.fst := (List.nodup_cons.mp h1).1
    have hnd : (rest.map Prod.fst).Nodup := (List.nodup_cons.mp h1).2
    have hrestk : ∀ q ∈ rest, ¬ (q.1 = n) := by
      intro q hq hh
      exact hnotin (hh ▸ List.mem_map_of_mem Prod.fst hq)
    have h2r : ∀ p ∈ rest, ∀ q ∈ rest, ¬ (p.1 = q.2.source) :=
      fun p hp q hq => h2 p (by simp [hp]) q (by simp [hq])
    have F1 := mapExcept_forall2 (listPathStep n rf idx) data data1 hm
    have F2 := addList_lookup_preserved rest data1 data2 hrest
    have Fcomp : List.Forall₂ (fun r r2 => listPathStep n rf idx r2 = .ok r2)
        data data2 := by
      refine forall2_compose ?_ data data1 data2 F1 F2
      intro r r1 r2 hstep hpres
      obtain ⟨v, hr1, hdet⟩ := listPathStep_shape n rf idx r r1 hstep
      subst hr1
      have hsn : ¬ ((rf.source : String) = n) := by
        intro hh
        exact h2 (n, rf) (by simp) (n, rf) (by simp) hh.symm
      have hsrest : ∀ q ∈ rest, ¬ (q.1 = rf.source) :=
        fun q hq => h2 q (by simp [hq]) (n, rf) (by simp)
      have hsrc2 : alistLookup r2 rf.source = alistLookup r rf.source := by
        rw [hpres rf.source hsrest, alistLookup_set, if_neg hsn]
      have hstep2 := hdet r2 hsrc2
      have hn2 : alistLookup r2 n = some v := by
        rw [hpres n hrestk, alistLookup_set]
        simp
      rw [alistSet_self r2 n v hn2] at hstep2
      exact hstep2
    have hm2 : mapExcept (listPathStep n rf idx) data2 = .ok data2 := by
      refine mapExcept_id_of_ok _ data2 ?_
      intro r2 hr2
      obtain ⟨r, _, hid⟩ := forall2_mem_right data data2 Fcomp r2 hr2
      exact hid
    rw [addList_cons_ok n rf rest data2 idx data2 hb hm2]
    exact ih data1 _ data2 hnd h2r hrest

/-- C9: calling resolve a second time on an already-resolved view with the
same specs yields the same output as the first call, on collection views
and on single-record views alike; and on the single-record path, when the
already-expanded check applies (every join-key source holds a nested
mapping in the resolved record) the second resolution makes no network call
at all. Hypotheses: the declared output names are distinct and disjoint
from the join-key sources, and (single-record path) every output name is
present in the record, as the serialization phase guarantees. -/
theorem c9_resolve_idempotent (rfs : List (String × RemoteField))
    (h1 : (rfs.map Prod.fst).Nodup)
    (h2 : ∀ p ∈ rfs, ∀ q ∈ rfs, ¬ (p.1 = q.2.source)) :
    (∀ data tr data2, addRemoteFieldsToList rfs data = (tr, .ok data2) →
      (addRemoteFieldsToList rfs data2).2 = .ok data2) ∧
    (∀ d tr d2, (∀ p ∈ rfs, alistContains d p.1 = true) →
      addRemoteFieldsToObj rfs d = (tr, .ok d2) →
      (addRemoteFieldsToObj rfs d2).2 = .ok d2 ∧
      ((∀ p ∈ rfs, ((alistLookup d2 p.2.source).getD .null).isDict = true) →
        (addRemoteFieldsToObj rfs d2).1 = [])) :=
  ⟨fun data tr data2 h4 => addList_resolve_stable rfs data tr data2 h1 h2 h4,
   fun d tr d2 h3 h4 => addObj_resolve_stable rfs d tr d2 h1 h2 h3 h4⟩

/-- C9 witness: a concrete resolved collection and a concrete resolved
single record each resolve to themselves on a second pass. -/
theorem c9_resolve_idempotent_witness :
    (addRemoteFieldsToList
      [("thing", (⟨"thing_id", ["id", "name"], false,
        [[("id", .int 7), ("name", .str "A")]],
        fun pk => .ok [("id", pk), ("name", .str "A")]⟩ : RemoteField))]
      [[("thing", .dict [("id", .int 7), ("name", .str "A")]),
        ("thing_id", .int 7)]]).2
      = .ok [[("thing", .dict [("id", .int 7), ("name", .str "A")]),
              ("thing_id", .int 7)]] ∧
    (addRemoteFieldsToObj
      [("thing", (⟨"thing_id", ["id", "name"], false,
        [[("id", .int 7), ("name", .str "A")]],
        fun pk => .ok [("id", pk), ("name", .str "A")]⟩ : RemoteField))]
      [("thing", .dict [("id", .int 7), ("name", .str "A")]),
       ("thing_id", .int 7)]).2
      = .ok [("thing", .dict [("id", .int 7), ("name", .str "A")]),
             ("thing_id", .int 7)] := by
  constructor
  · exact (c9_resolve_idempotent
      [("thing", (⟨"thing_id", ["id", "name"], false,
        [[("id", .int 7), ("name", .str "A")]],
        fun pk => .ok [("id", pk), ("name", .str "A")]⟩ : RemoteField))]
      (by decide) (by decide)).1
      [[("thing", .null), ("thing_id", .int 7)]]
      [.listCall "thing"]
      [[("thing", .dict [("id", .int 7), ("name", .str "A")]), ("thing_id", .int 7)]]
      rfl
  · exact ((c9_resolve_idempotent
      [("thing", (⟨"thing_id", ["id", "name"], false,
        [[("id", .int 7), ("name", .str "A")]],
        fun pk => .ok [("id", pk), ("name", .str "A")]⟩ : RemoteField))]
      (by decide) (by decide)).2
      [("thing", .null), ("thing_id", .int 7)]
      [.detailCall "thing" (.int 7)]
      [("thing", .dict [("id", .int 7), ("name", .str "A")]), ("thing_id", .int 7)]
      (by decide) rfl).1

end RemoteFields
